import Mathlib

/-!
Verification model of the PYPLYN conversion pipeline (`converter_nieuwe.py`).

The script converts a delimited text file into a Parquet dataset:
delimiter sniffing (`detect_delimiter`, lines 9-13), a schema-constrained
tolerant read (`dd.read_csv`, lines 41-54), a diagnostic audit (partition row
counts, dtypes, missing-value counts; lines 56-69), numeric coercion followed
by imputation (lines 71-83), a partitioned Parquet write (line 86), and two
read-only passes over the output directory (per-file report, lines 92-105,
and per-file validation, lines 107-116).

The dataframe is modelled column-major, as a dask dataframe is: an ordered
list of named columns, each holding its per-partition cell lists.  Numeric
values are modelled exactly (rationals plus the two infinities and NaN);
none of the properties below depend on binary rounding.  Library calls
(`pd.to_numeric`, `fillna`, `usecols` selection, `csv.Sniffer`) are modelled
by their documented semantics; the sniffer itself is an explicit function
parameter since only its determinism matters here.
-/

/-- Decidable equality of `Except` results, for evaluating the model on
concrete inputs. -/
instance {ε α : Type} [DecidableEq ε] [DecidableEq α] : DecidableEq (Except ε α) :=
  fun x y =>
    match x, y with
    | Except.error a, Except.error b =>
      if h : a = b then Decidable.isTrue (h ▸ rfl)
      else Decidable.isFalse (fun he => h (by cases he; rfl))
    | Except.error _, Except.ok _ => Decidable.isFalse (fun he => by cases he)
    | Except.ok _, Except.error _ => Decidable.isFalse (fun he => by cases he)
    | Except.ok a, Except.ok b =>
      if h : a = b then Decidable.isTrue (h ▸ rfl)
      else Decidable.isFalse (fun he => h (by cases he; rfl))

/-- The values a float64 column can hold after `pd.to_numeric`:
finite numbers (modelled exactly), the two infinities, and NaN
(pandas' missing marker). -/
inductive NumVal where
  | finite (q : ℚ)
  | posInf
  | negInf
  | nan
deriving DecidableEq

/-- One dataframe cell: an object (text) cell, either a string or the
missing marker, or a float64 cell. -/
inductive Cell where
  | text (s : Option String)
  | num (v : NumVal)
deriving DecidableEq

/-- pandas' default `na_values`: field texts read as missing by `read_csv`. -/
def defaultNAValues : List String :=
  ["", "#N/A", "#N/A N/A", "#NA", "-1.#IND", "-1.#QNAN", "-NaN", "-nan",
   "1.#IND", "1.#QNAN", "<NA>", "N/A", "NA", "NULL", "NaN", "None", "n/a", "nan", "null"]

/-- ASCII lowercasing of one character. -/
def lowerChar (c : Char) : Char :=
  if 65 ≤ c.toNat ∧ c.toNat ≤ 90 then Char.ofNat (c.toNat + 32) else c

/-- Numeric value of a digit list. -/
def digitsVal (cs : List Char) : Nat :=
  cs.foldl (fun a c => a * 10 + (c.toNat - 48)) 0

/-- Parse the optional exponent suffix of a decimal literal (the input is
already lowercased), returning the signed decimal exponent.  The whole rest
of the text must be consumed. -/
def parseExpPart (cs : List Char) : Option Int :=
  match cs with
  | [] => some 0
  | c :: r =>
    if c = 'e' then
      let sr : Int × List Char :=
        match r with
        | '+' :: r2 => (1, r2)
        | '-' :: r2 => (-1, r2)
        | _ => (1, r)
      let ds := sr.2.takeWhile Char.isDigit
      let rest := sr.2.dropWhile Char.isDigit
      if ds = [] ∨ rest ≠ [] then none
      else some (sr.1 * (digitsVal ds : Int))
    else none

/-- Parse an unsigned decimal literal: digits, optional fractional part,
optional exponent; at least one digit overall, nothing left over.  The
value is returned exactly, as a mantissa and a signed power of ten. -/
def parseUnsigned (cs : List Char) : Option (Nat × Int) :=
  let ip := cs.takeWhile Char.isDigit
  let r1 := cs.dropWhile Char.isDigit
  match r1 with
  | '.' :: r2 =>
    let fp := r2.takeWhile Char.isDigit
    let r3 := r2.dropWhile Char.isDigit
    if ip = [] ∧ fp = [] then none
    else (parseExpPart r3).map (fun e => (digitsVal (ip ++ fp), e - (fp.length : Int)))
  | _ =>
    if ip = [] then none
    else (parseExpPart r1).map (fun e => (digitsVal ip, e))

/-- Numeric-text conversion as performed by `pd.to_numeric` (pandas
`floatify`): optional sign, then a decimal literal or one of the words
inf / infinity / nan, case-insensitively; finite values beyond the double
range overflow to an infinity.  `none` means the text does not parse. -/
def floatify (s : String) : Option NumVal :=
  let cs := s.data.map lowerChar
  let sb : Bool × List Char :=
    match cs with
    | '+' :: r => (false, r)
    | '-' :: r => (true, r)
    | _ => (false, cs)
  if sb.2 = "inf".data ∨ sb.2 = "infinity".data then
    some (if sb.1 then NumVal.negInf else NumVal.posInf)
  else if sb.2 = "nan".data then some NumVal.nan
  else
    match parseUnsigned sb.2 with
    | none => none
    | some me =>
      let overflow : Bool :=
        if 0 ≤ me.2 then decide (2 ^ 1024 ≤ me.1 * 10 ^ me.2.toNat)
        else decide (2 ^ 1024 * 10 ^ (-me.2).toNat ≤ me.1)
      if overflow then some (if sb.1 then NumVal.negInf else NumVal.posInf)
      else
        let q : ℚ :=
          if 0 ≤ me.2 then mkRat ((me.1 * 10 ^ me.2.toNat : ℕ) : ℤ) 1
          else mkRat (me.1 : ℤ) (10 ^ (-me.2).toNat)
        some (NumVal.finite (if sb.1 then -q else q))

/-- `pd.to_numeric(x, errors='coerce')` on one object cell: a missing cell
stays NaN, unparsable text becomes NaN instead of raising
(line 73 of `converter_nieuwe.py`). -/
def to_numeric (o : Option String) : NumVal :=
  match o with
  | none => NumVal.nan
  | some s => (floatify s).getD NumVal.nan

/-- Coercion of one cell into the float64 column produced by
`ddf[col].apply(pd.to_numeric, errors='coerce')`. -/
def coerceCell (c : Cell) : Cell :=
  match c with
  | Cell.text o => Cell.num (to_numeric o)
  | Cell.num v => Cell.num v

/-- pandas' missing marker test (`isnull`): NaN in either backing. -/
def isMissing : Cell → Bool
  | Cell.text none => true
  | Cell.text (some _) => false
  | Cell.num NumVal.nan => true
  | Cell.num (NumVal.finite _) => false
  | Cell.num NumVal.posInf => false
  | Cell.num NumVal.negInf => false

/-- `fillna(v)` on one cell: replace the missing marker by `v`. -/
def fillCell (v : Cell) (c : Cell) : Cell :=
  if isMissing c then v else c

/-- A dask dataframe: ordered named columns, each holding its
per-partition lists of cells. -/
structure Table where
  cols : List (String × List (List Cell))
deriving DecidableEq

/-- The column names of a table, in order. -/
def tableHeader (t : Table) : List String := t.cols.map Prod.fst

/-- All cells of the named column, partitions concatenated in order. -/
def colCells (t : Table) (name : String) : List Cell :=
  ((List.lookup name t.cols).getD []).flatten

/-- `ddf[name] = ddf[name] transformed`: replace one column's cells. -/
def mapCol (name : String) (f : Cell → Cell) (t : Table) : Table :=
  { cols := t.cols.map (fun p =>
      (p.1, if p.1 = name then p.2.map (fun ch => ch.map f) else p.2)) }

/-- `ddf.fillna({col: v, ...})`: fill the named columns' missing cells with
their per-column replacement strings (lines 79-83). -/
def fillna_dict (fills : List (String × String)) (t : Table) : Table :=
  { cols := t.cols.map (fun p =>
      (p.1,
        match List.lookup p.1 fills with
        | some v => p.2.map (fun ch => ch.map (fillCell (Cell.text (some v))))
        | none => p.2)) }

/-- The fixed schema (`keep_columns`, lines 26-29). -/
def keep_columns : List String :=
  ["gbifID", "species", "decimalLongitude", "decimalLatitude",
   "countryCode", "elevation", "datasetKey", "eventDate"]

/-- The three columns converted to float64 (line 72). -/
def numeric_columns : List String :=
  ["decimalLongitude", "decimalLatitude", "elevation"]

/-- The numeric fill value `-9999` (lines 76-78). -/
def numFillC : Cell := Cell.num (NumVal.finite (-9999))

/-- The string-column fill dictionary (lines 79-83). -/
def string_fills : List (String × String) :=
  [("species", "Unknown"), ("countryCode", "Unknown"), ("eventDate", "Unknown")]

/-- The six columns that have a declared fill. -/
def fill_columns : List String :=
  ["species", "decimalLongitude", "decimalLatitude", "countryCode",
   "elevation", "eventDate"]

/-- A source file as the CSV engine sees it: the header's field names and
the data records, already split into fields and grouped into the blocks
that become partitions. -/
structure CsvFile where
  header : List String
  blocks : List (List (List String))
deriving DecidableEq

/-- Reading one field of a record at a header position: an absent trailing
field or a default-NA text becomes the missing marker. -/
def getField (r : List String) (i : Nat) : Cell :=
  match r.get? i with
  | some s => Cell.text (if defaultNAValues.contains s then none else some s)
  | none => Cell.text none

/-- The fatal read failure (`except` branch at lines 52-54; the spec's
`IngestError`). -/
inductive IngestFailure | usecolsMissing
deriving DecidableEq

/-- pandas' duplicate-header-name mangling (`mangle_dupe_cols`), one name
at a time: `seen` holds the original names already processed, and the k-th
repetition of a name gets the suffix `.k`, so a later duplicate never
collides with a dot-free schema name. -/
def mangleFrom : List String → List String → List String
  | _, [] => []
  | seen, a :: rest =>
    (if seen.count a = 0 then a else a ++ "." ++ toString (seen.count a)) ::
      mangleFrom (seen ++ [a]) rest

/-- The header as pandas labels it: duplicate names mangled. -/
def mangle_dupe_cols (h : List String) : List String := mangleFrom [] h

/-- `dd.read_csv(csv_path, delimiter=..., usecols=keep_columns,
dtype=object, on_bad_lines='skip', engine='python')` (lines 41-54):
duplicate header names are mangled first, as pandas does; the read fails
if any requested column is missing from the mangled header; otherwise it
keeps the requested columns in the order they occur there (of a duplicated
schema name only the first occurrence, since later ones carry a mangled
dotted name), skips records with more fields than the header, and pads
short records with missing. -/
def read_csv (f : CsvFile) : Except IngestFailure Table :=
  if keep_columns.all (fun c => (mangle_dupe_cols f.header).contains c) then
    Except.ok
      { cols :=
          ((mangle_dupe_cols f.header).enum.filter
              (fun p => keep_columns.contains p.2)).map (fun p =>
            (p.2,
              f.blocks.map (fun b =>
                (b.filter (fun r => r.length ≤ f.header.length)).map
                  (fun r => getField r p.1)))) }
  else Except.error IngestFailure.usecolsMissing

/-- Number of missing cells in one column (`isnull().sum()`). -/
def missingCount (chunks : List (List Cell)) : Nat :=
  chunks.flatten.countP isMissing

/-- Rows per partition (`map_partitions(lambda df: len(df))`, line 58);
all columns are aligned, so the first column's chunk lengths are used. -/
def partRowCounts (t : Table) : List Nat :=
  ((t.cols.headD ("", [])).2).map List.length

/-- Everything the audit stage (lines 56-69) computes and prints:
per-partition row counts, the dtypes listing, and the missing-value counts
restricted to columns with a nonzero count. -/
structure AuditReport where
  partitionRowCounts : List Nat
  dtypes : List (String × String)
  missingNonzero : List (String × Nat)
deriving DecidableEq

/-- The audit stage (lines 56-69), run on the raw object-typed table. -/
def auditReport (t : Table) : AuditReport :=
  { partitionRowCounts := partRowCounts t
  , dtypes := t.cols.map (fun p => (p.1, "object"))
  , missingNonzero :=
      (t.cols.map (fun p => (p.1, missingCount p.2))).filter
        (fun q => decide (0 < q.2)) }

/-- The per-column missing-value pattern of a table: everything the audit
stage's output can depend on besides names and partition shapes. -/
def missingMask (t : Table) : List (String × List (List Bool)) :=
  t.cols.map (fun p => (p.1, p.2.map (fun ch => ch.map isMissing)))

/-- The distinct text values of a column that fail numeric coercion.
Modelled from the spec's words for the Quality Auditor ("collects the
distinct set of values that fail coercion"); the script computes no such
set, and this definition exists only to state that claim. -/
def specFailingValues (t : Table) (name : String) : List String :=
  ((colCells t name).filterMap (fun c =>
      match c with
      | Cell.text (some s) => if coerceCell c = Cell.num NumVal.nan then some s else none
      | _ => none)).dedup

/-- The coercion-and-imputation stage (lines 71-83): coerce the three
numeric columns, then fill them with `-9999`, then fill the three string
columns with `"Unknown"`. -/
def coerce_and_impute (t : Table) : Table :=
  let t1 := numeric_columns.foldl (fun acc c => mapCol c coerceCell acc) t
  let t2 := mapCol "decimalLongitude" (fillCell numFillC) t1
  let t3 := mapCol "decimalLatitude" (fillCell numFillC) t2
  let t4 := mapCol "elevation" (fillCell numFillC) t3
  fillna_dict string_fills t4

/-- A Parquet file's contents: named columns of cells. -/
abbrev PqFrame := List (String × List Cell)

/-- A file in the output directory: a readable Parquet frame, or bytes that
`pq.read_table` cannot open. -/
inductive FileContent
  | parquet (fr : PqFrame)
  | corrupt
deriving DecidableEq

/-- The filesystem state the script touches: whether `os.makedirs` has run,
and the output directory's files. -/
structure FsState where
  dirCreated : Bool
  dir : List (String × FileContent)
deriving DecidableEq

/-- The partition file names dask emits. -/
def partName (i : Nat) : String := "part." ++ toString i ++ ".parquet"

/-- Number of partitions of a table. -/
def nPartitions (t : Table) : Nat := ((t.cols.headD ("", [])).2).length

/-- The frame for one partition: every column's chunk `i`. -/
def partitionFrame (t : Table) (i : Nat) : PqFrame :=
  t.cols.map (fun p => (p.1, (p.2.get? i).getD []))

/-- The synthetic row-index column that would be emitted with
`write_index=True`. -/
def indexColumn (t : Table) (i : Nat) : String × List Cell :=
  ("__index__",
    (List.range (((t.cols.headD ("", [])).2.get? i).getD []).length).map
      (fun j => Cell.num (NumVal.finite j)))

/-- `ddf.to_parquet(output_dir, engine='pyarrow', write_index=...)`
(line 86): one file per partition; the index column is prepended only when
`write_index` is true (the script passes `False`). -/
def to_parquet (write_index : Bool) (t : Table) : List (String × FileContent) :=
  (List.range (nPartitions t)).map (fun i =>
    (partName i,
      FileContent.parquet
        (if write_index then indexColumn t i :: partitionFrame t i
         else partitionFrame t i)))

/-- Writing one file into a directory: overwrite an existing name, else
append. -/
def upsert (d : List (String × FileContent)) (name : String) (c : FileContent) :
    List (String × FileContent) :=
  if d.any (fun e => e.1 = name) then
    d.map (fun e => if e.1 = name then (name, c) else e)
  else d ++ [(name, c)]

/-- Writing a list of files into a directory. -/
def writeAll (d : List (String × FileContent)) (files : List (String × FileContent)) :
    List (String × FileContent) :=
  files.foldl (fun acc f => upsert acc f.1 f.2) d

/-- `filename.endswith(".parquet")` (lines 95 and 110). -/
def parquetSuffix (n : String) : Bool :=
  List.isSuffixOf ".parquet".data n.data

/-- The names the two post-write loops iterate over: the directory listing
filtered to `.parquet` names. -/
def listParquet (st : FsState) : List String :=
  (st.dir.map Prod.fst).filter parquetSuffix

/-- `pq.read_table(file_path)`: `some` frame, or `none` when opening fails. -/
def pq_read_table (dir : List (String × FileContent)) (name : String) : Option PqFrame :=
  match List.lookup name dir with
  | some (FileContent.parquet fr) => some fr
  | some FileContent.corrupt => none
  | none => none

/-- Rows of a frame (`table.num_rows`). -/
def frameRows (fr : PqFrame) : Nat := ((fr.headD ("", [])).2).length

/-- One line of the per-file report (lines 92-105): row count and schema,
or a read error. -/
inductive FileReport
  | ok (name : String) (rows : Nat) (schema : List String)
  | bad (name : String)
deriving DecidableEq

/-- The file a report line is about. -/
def FileReport.fname : FileReport → String
  | FileReport.ok n _ _ => n
  | FileReport.bad n => n

/-- One iteration of the report loop (lines 94-105): read the file, append
its report line; the filesystem state is only read. -/
def reportStep (acc : FsState × List FileReport) (name : String) :
    FsState × List FileReport :=
  match pq_read_table acc.1.dir name with
  | some fr => (acc.1, acc.2 ++ [FileReport.ok name (frameRows fr) (fr.map Prod.fst)])
  | none => (acc.1, acc.2 ++ [FileReport.bad name])

/-- The per-file report pass (lines 92-105). -/
def reportPass (st : FsState) : FsState × List FileReport :=
  (listParquet st).foldl reportStep (st, [])

/-- One iteration of the validation loop (lines 109-116): reopen the file,
record validity; the filesystem state is only read. -/
def validateStep (acc : FsState × List (String × Bool)) (name : String) :
    FsState × List (String × Bool) :=
  match pq_read_table acc.1.dir name with
  | some _ => (acc.1, acc.2 ++ [(name, true)])
  | none => (acc.1, acc.2 ++ [(name, false)])

/-- The post-write validation pass (lines 107-116). -/
def validatePass (st : FsState) : FsState × List (String × Bool) :=
  (listParquet st).foldl validateStep (st, [])

/-- The fatal outcomes of a run.  `formatDetection` is the spec's
`FormatDetectionError`: the uncaught exception that `next(f)` raises inside
`detect_delimiter` when the file is shorter than the sample, or the
sniffer's failure; `ingest` is the spec's `IngestError` (`sys.exit(1)` at
line 54). -/
inductive RunError | formatDetection | ingest
deriving DecidableEq

/-- `detect_delimiter(filepath, sample_size)` (lines 9-13): take the first
`sample_size` lines — failing if fewer exist — and sniff a delimiter from
their concatenation.  The sniffer (`csv.Sniffer().sniff`) is passed in as a
function; `none` models its `csv.Error`. -/
def detect_delimiter (sniff : String → Option Char) (lines : List String)
    (sample_size : Nat) : Except RunError Char :=
  if lines.length < sample_size then Except.error RunError.formatDetection
  else
    match sniff (String.intercalate "\n" (lines.take sample_size)) with
    | some d => Except.ok d
    | none => Except.error RunError.formatDetection

/-- The conversion's input file, seen two ways: its raw lines (what
delimiter detection samples) and, for each candidate delimiter, the
field-split records the CSV engine would produce. -/
structure ConvInput where
  lines : List String
  parsed : Char → CsvFile

/-- Everything a successful run reports. -/
structure ConvOutput where
  delimiter : Char
  audit : AuditReport
  fileReports : List FileReport
  validity : List (String × Bool)
deriving DecidableEq

/-- `convert_csv_to_parquet(csv_path, output_dir)` (lines 15-116): detect
the delimiter (sample size 1000, the Python default), create the output
directory, read, audit, coerce and impute, write the partitions, then run
the report and validation passes. -/
def convert_csv_to_parquet (sniff : String → Option Char) (inp : ConvInput)
    (st : FsState) : FsState × Except RunError ConvOutput :=
  match detect_delimiter sniff inp.lines 1000 with
  | Except.error _ => (st, Except.error RunError.formatDetection)
  | Except.ok delim =>
    let st1 : FsState := { dirCreated := true, dir := st.dir }
    match read_csv (inp.parsed delim) with
    | Except.error _ => (st1, Except.error RunError.ingest)
    | Except.ok t =>
      let audit := auditReport t
      let t2 := coerce_and_impute t
      let st2 : FsState := { dirCreated := st1.dirCreated
                           , dir := writeAll st1.dir (to_parquet false t2) }
      let pr := reportPass st2
      let vr := validatePass pr.1
      (vr.1, Except.ok { delimiter := delim, audit := audit
                       , fileReports := pr.2, validity := vr.2 })

/-- A well-formed one-record source whose `elevation` field is the text
`inf`, with the header in the fixed schema order. -/
def fileInf : CsvFile :=
  { header := keep_columns
  , blocks := [[["1", "Homo sapiens", "5.1", "52.3", "NL", "inf", "k1", "2020-01-01"]]] }

/-- The table `read_csv` produces from `fileInf`. -/
def tableInf : Table :=
  { cols :=
      [ ("gbifID", [[Cell.text (some "1")]])
      , ("species", [[Cell.text (some "Homo sapiens")]])
      , ("decimalLongitude", [[Cell.text (some "5.1")]])
      , ("decimalLatitude", [[Cell.text (some "52.3")]])
      , ("countryCode", [[Cell.text (some "NL")]])
      , ("elevation", [[Cell.text (some "inf")]])
      , ("datasetKey", [[Cell.text (some "k1")]])
      , ("eventDate", [[Cell.text (some "2020-01-01")]]) ] }

/-- A source whose header lists the eight schema columns in reverse order. -/
def fileRev : CsvFile :=
  { header := keep_columns.reverse
  , blocks := [[["2020-01-01", "k1", "10", "NL", "52.3", "5.1", "Homo sapiens", "1"]]] }

/-- A source whose header repeats `species` (after all eight schema
columns): pandas mangles the repeat to `species.1`, so only the first
occurrence is selected. -/
def fileDup : CsvFile :=
  { header := keep_columns ++ ["species"]
  , blocks := [[["1", "Homo sapiens", "5.1", "52.3", "NL", "7", "k1",
                 "2020-01-01", "dup"]]] }

/-- The table `read_csv` produces from `fileDup`: exactly the eight schema
columns, the duplicated `species` taken from its first occurrence. -/
def tableDup : Table :=
  { cols :=
      [ ("gbifID", [[Cell.text (some "1")]])
      , ("species", [[Cell.text (some "Homo sapiens")]])
      , ("decimalLongitude", [[Cell.text (some "5.1")]])
      , ("decimalLatitude", [[Cell.text (some "52.3")]])
      , ("countryCode", [[Cell.text (some "NL")]])
      , ("elevation", [[Cell.text (some "7")]])
      , ("datasetKey", [[Cell.text (some "k1")]])
      , ("eventDate", [[Cell.text (some "2020-01-01")]]) ] }

/-- A source whose header contains seven of the eight schema columns
(`gbifID` is missing) and one extra column. -/
def file7 : CsvFile :=
  { header := ["species", "decimalLongitude", "decimalLatitude", "countryCode",
               "elevation", "datasetKey", "eventDate", "extra"]
  , blocks := [[["Homo sapiens", "5.1", "52.3", "NL", "10", "k1", "2020-01-01", "x"]]] }

/-- A read table whose `elevation` column holds the unparsable text `abc`. -/
def tableA : Table :=
  { cols :=
      [ ("gbifID", [[Cell.text (some "1")]])
      , ("species", [[Cell.text none]])
      , ("decimalLongitude", [[Cell.text (some "5.1")]])
      , ("decimalLatitude", [[Cell.text (some "52.3")]])
      , ("countryCode", [[Cell.text (some "NL")]])
      , ("elevation", [[Cell.text (some "abc")]])
      , ("datasetKey", [[Cell.text (some "k1")]])
      , ("eventDate", [[Cell.text (some "2020-01-01")]]) ] }

/-- `tableA` with the unparsable elevation text `xyz` instead of `abc`. -/
def tableB : Table :=
  { cols :=
      [ ("gbifID", [[Cell.text (some "1")]])
      , ("species", [[Cell.text none]])
      , ("decimalLongitude", [[Cell.text (some "5.1")]])
      , ("decimalLatitude", [[Cell.text (some "52.3")]])
      , ("countryCode", [[Cell.text (some "NL")]])
      , ("elevation", [[Cell.text (some "xyz")]])
      , ("datasetKey", [[Cell.text (some "k1")]])
      , ("eventDate", [[Cell.text (some "2020-01-01")]]) ] }

/-- A concrete sniffer that always detects a comma. -/
def sniffComma : String → Option Char := fun _ => some ','

/-- A concrete parse function ignoring the delimiter. -/
def parsedInf : Char → CsvFile := fun _ => fileInf

/-- A one-line input: far shorter than the 1000-line detection sample. -/
def inpShort : ConvInput := { lines := ["a,b"], parsed := parsedInf }

/-- An empty starting filesystem state. -/
def stEmpty : FsState := { dirCreated := false, dir := [] }

/-- A directory that already holds a Parquet file and a non-Parquet file
before the run. -/
def stPre : FsState :=
  { dirCreated := true
  , dir := [("old.parquet", FileContent.parquet [("a", [Cell.text (some "v")])]),
            ("notes.txt", FileContent.corrupt)] }

/-- 1000 identical comma-separated lines. -/
def linesA : List String := List.replicate 1000 "a,b"

/-- The same 1000 lines followed by an extra line: identical leading sample. -/
def linesB : List String := List.replicate 1000 "a,b" ++ ["c,d"]

/-- Conversion input built over `linesA`. -/
def inpA : ConvInput := { lines := linesA, parsed := parsedInf }

/-- Conversion input built over `linesB`. -/
def inpB : ConvInput := { lines := linesB, parsed := parsedInf }

/-- The per-cell shape of the claim "after coercion the value is either a
finite float or exactly the sentinel -9999", stated from the spec's words
(the sentinel itself is finite). -/
def finiteOrSentinel : Cell → Bool
  | Cell.num (NumVal.finite _) => true
  | Cell.num NumVal.posInf => false
  | Cell.num NumVal.negInf => false
  | Cell.num NumVal.nan => false
  | Cell.text _ => false

/-- A float64 cell that is not NaN (what coercion plus imputation actually
guarantees). -/
def floatNotNan : Cell → Bool
  | Cell.num (NumVal.finite _) => true
  | Cell.num NumVal.posInf => true
  | Cell.num NumVal.negInf => true
  | Cell.num NumVal.nan => false
  | Cell.text _ => false

/-- Schema of a directory file's contents. -/
def contentSchema : FileContent → List String
  | FileContent.parquet fr => fr.map Prod.fst
  | FileContent.corrupt => []

set_option maxRecDepth 8000

/-- Looking a key up in a list mapped by a key-preserving function. -/
theorem lookup_keyed_map {β : Type} (F : String → β → β) (m : String) :
    ∀ l : List (String × β),
      List.lookup m (l.map (fun p => (p.1, F p.1 p.2))) = (List.lookup m l).map (F m)
  | [] => rfl
  | (k, v) :: l => by
    cases hbeq : m == k with
    | true =>
      have hk : m = k := by simpa using hbeq
      simp [List.lookup, hbeq, hk]
    | false => simpa [List.lookup, hbeq] using lookup_keyed_map F m l

/-- A key-preserving map does not change the key list. -/
theorem map_fst_keyed_map {β γ : Type} (F : String → β → γ) :
    ∀ l : List (String × β),
      (l.map (fun p => (p.1, F p.1 p.2))).map Prod.fst = l.map Prod.fst
  | [] => rfl
  | _ :: l => by simp [map_fst_keyed_map F l]

/-- `mapCol` rewrites the named column cell-wise. -/
theorem colCells_mapCol_self (name : String) (f : Cell → Cell) (t : Table) :
    colCells (mapCol name f t) name = (colCells t name).map f := by
  unfold colCells mapCol
  rw [lookup_keyed_map (fun k chs => if k = name then chs.map (fun ch => ch.map f) else chs)
        name t.cols]
  cases List.lookup name t.cols with
  | none => simp
  | some chs => simp [List.map_flatten]

/-- `mapCol` leaves every other column unchanged. -/
theorem colCells_mapCol_ne {m name : String} (h : m ≠ name) (f : Cell → Cell) (t : Table) :
    colCells (mapCol name f t) m = colCells t m := by
  unfold colCells mapCol
  rw [lookup_keyed_map (fun k chs => if k = name then chs.map (fun ch => ch.map f) else chs)
        m t.cols]
  cases List.lookup m t.cols with
  | none => simp
  | some chs => simp [h]

/-- `fillna_dict` leaves columns outside the dictionary unchanged. -/
theorem colCells_fillna_none {m : String} {fills : List (String × String)}
    (h : List.lookup m fills = none) (t : Table) :
    colCells (fillna_dict fills t) m = colCells t m := by
  unfold colCells fillna_dict
  rw [lookup_keyed_map
        (fun k chs =>
          match List.lookup k fills with
          | some v => chs.map (fun ch => ch.map (fillCell (Cell.text (some v))))
          | none => chs)
        m t.cols]
  cases List.lookup m t.cols with
  | none => simp
  | some chs => simp [h]

/-- `fillna_dict` fills a column named in the dictionary cell-wise. -/
theorem colCells_fillna_some (m v : String) (fills : List (String × String))
    (h : List.lookup m fills = some v) (t : Table) :
    colCells (fillna_dict fills t) m = (colCells t m).map (fillCell (Cell.text (some v))) := by
  unfold colCells fillna_dict
  rw [lookup_keyed_map
        (fun k chs =>
          match List.lookup k fills with
          | some v => chs.map (fun ch => ch.map (fillCell (Cell.text (some v))))
          | none => chs)
        m t.cols]
  cases List.lookup m t.cols with
  | none => simp
  | some chs => simp [h, List.map_flatten]

/-- `mapCol` preserves the header. -/
theorem tableHeader_mapCol (name : String) (f : Cell → Cell) (t : Table) :
    tableHeader (mapCol name f t) = tableHeader t := by
  unfold tableHeader mapCol
  exact map_fst_keyed_map
    (fun k (chs : List (List Cell)) =>
      if k = name then chs.map (fun ch => ch.map f) else chs) t.cols

/-- `fillna_dict` preserves the header. -/
theorem tableHeader_fillna_dict (fills : List (String × String)) (t : Table) :
    tableHeader (fillna_dict fills t) = tableHeader t := by
  unfold tableHeader fillna_dict
  exact map_fst_keyed_map
    (fun k (chs : List (List Cell)) =>
      (match List.lookup k fills with
        | some v => chs.map (fun ch => ch.map (fillCell (Cell.text (some v))))
        | none => chs : List (List Cell)))
    t.cols

/-- The coercion-and-imputation stage, with the loop over the three numeric
columns unrolled. -/
theorem coerce_and_impute_unfold (t : Table) :
    coerce_and_impute t =
      fillna_dict string_fills
        (mapCol "elevation" (fillCell numFillC)
          (mapCol "decimalLatitude" (fillCell numFillC)
            (mapCol "decimalLongitude" (fillCell numFillC)
              (mapCol "elevation" coerceCell
                (mapCol "decimalLatitude" coerceCell
                  (mapCol "decimalLongitude" coerceCell t)))))) := rfl

/-- After the full stage, `gbifID` is untouched. -/
theorem colCells_transform_gbifID (t : Table) :
    colCells (coerce_and_impute t) "gbifID" = colCells t "gbifID" := by
  rw [coerce_and_impute_unfold, colCells_fillna_none (by decide),
      colCells_mapCol_ne (by decide), colCells_mapCol_ne (by decide),
      colCells_mapCol_ne (by decide), colCells_mapCol_ne (by decide),
      colCells_mapCol_ne (by decide), colCells_mapCol_ne (by decide)]

/-- After the full stage, `datasetKey` is untouched. -/
theorem colCells_transform_datasetKey (t : Table) :
    colCells (coerce_and_impute t) "datasetKey" = colCells t "datasetKey" := by
  rw [coerce_and_impute_unfold, colCells_fillna_none (by decide),
      colCells_mapCol_ne (by decide), colCells_mapCol_ne (by decide),
      colCells_mapCol_ne (by decide), colCells_mapCol_ne (by decide),
      colCells_mapCol_ne (by decide), colCells_mapCol_ne (by decide)]

/-- After the full stage, `decimalLongitude` is coerced and then filled. -/
theorem colCells_transform_lng (t : Table) :
    colCells (coerce_and_impute t) "decimalLongitude" =
      ((colCells t "decimalLongitude").map coerceCell).map (fillCell numFillC) := by
  rw [coerce_and_impute_unfold, colCells_fillna_none (by decide),
      colCells_mapCol_ne (by decide), colCells_mapCol_ne (by decide),
      colCells_mapCol_self, colCells_mapCol_ne (by decide),
      colCells_mapCol_ne (by decide), colCells_mapCol_self]

/-- After the full stage, `decimalLatitude` is coerced and then filled. -/
theorem colCells_transform_lat (t : Table) :
    colCells (coerce_and_impute t) "decimalLatitude" =
      ((colCells t "decimalLatitude").map coerceCell).map (fillCell numFillC) := by
  rw [coerce_and_impute_unfold, colCells_fillna_none (by decide),
      colCells_mapCol_ne (by decide), colCells_mapCol_self,
      colCells_mapCol_ne (by decide), colCells_mapCol_ne (by decide),
      colCells_mapCol_self, colCells_mapCol_ne (by decide)]

/-- After the full stage, `elevation` is coerced and then filled. -/
theorem colCells_transform_elev (t : Table) :
    colCells (coerce_and_impute t) "elevation" =
      ((colCells t "elevation").map coerceCell).map (fillCell numFillC) := by
  rw [coerce_and_impute_unfold, colCells_fillna_none (by decide),
      colCells_mapCol_self, colCells_mapCol_ne (by decide),
      colCells_mapCol_ne (by decide), colCells_mapCol_self,
      colCells_mapCol_ne (by decide), colCells_mapCol_ne (by decide)]

/-- After the full stage, `species` is filled with `"Unknown"`. -/
theorem colCells_transform_species (t : Table) :
    colCells (coerce_and_impute t) "species" =
      (colCells t "species").map (fillCell (Cell.text (some "Unknown"))) := by
  rw [coerce_and_impute_unfold, colCells_fillna_some _ "Unknown" string_fills (by decide),
      colCells_mapCol_ne (by decide), colCells_mapCol_ne (by decide),
      colCells_mapCol_ne (by decide), colCells_mapCol_ne (by decide),
      colCells_mapCol_ne (by decide), colCells_mapCol_ne (by decide)]

/-- After the full stage, `countryCode` is filled with `"Unknown"`. -/
theorem colCells_transform_country (t : Table) :
    colCells (coerce_and_impute t) "countryCode" =
      (colCells t "countryCode").map (fillCell (Cell.text (some "Unknown"))) := by
  rw [coerce_and_impute_unfold, colCells_fillna_some _ "Unknown" string_fills (by decide),
      colCells_mapCol_ne (by decide), colCells_mapCol_ne (by decide),
      colCells_mapCol_ne (by decide), colCells_mapCol_ne (by decide),
      colCells_mapCol_ne (by decide), colCells_mapCol_ne (by decide)]

/-- After the full stage, `eventDate` is filled with `"Unknown"`. -/
theorem colCells_transform_event (t : Table) :
    colCells (coerce_and_impute t) "eventDate" =
      (colCells t "eventDate").map (fillCell (Cell.text (some "Unknown"))) := by
  rw [coerce_and_impute_unfold, colCells_fillna_some _ "Unknown" string_fills (by decide),
      colCells_mapCol_ne (by decide), colCells_mapCol_ne (by decide),
      colCells_mapCol_ne (by decide), colCells_mapCol_ne (by decide),
      colCells_mapCol_ne (by decide), colCells_mapCol_ne (by decide)]

/-- A coerced cell is always a float cell. -/
theorem coerceCell_is_num (c : Cell) : ∃ v, coerceCell c = Cell.num v := by
  cases c with
  | text o => exact ⟨to_numeric o, rfl⟩
  | num v => exact ⟨v, rfl⟩

/-- Filling a coerced cell with the numeric sentinel leaves no missing
marker and no NaN. -/
theorem fill_coerce_not_missing (c : Cell) :
    isMissing (fillCell numFillC (coerceCell c)) = false ∧
    floatNotNan (fillCell numFillC (coerceCell c)) = true := by
  obtain ⟨v, hv⟩ := coerceCell_is_num c
  rw [hv]
  cases v <;> simp [fillCell, isMissing, numFillC, floatNotNan]

/-- Filling any cell with a string leaves no missing marker. -/
theorem fill_text_not_missing (v : String) (c : Cell) :
    isMissing (fillCell (Cell.text (some v)) c) = false := by
  cases c with
  | text o => cases o <;> simp [fillCell, isMissing]
  | num w => cases w <;> simp [fillCell, isMissing]

/-- Helper: a column-wise map by `g` satisfies `all p` when `p ∘ g` is
constantly true. -/
theorem all_map_of_pointwise {p : Cell → Bool} {g : Cell → Cell}
    (hg : ∀ c, p (g c) = true) : ∀ l : List Cell, ((l.map g).all p) = true
  | [] => rfl
  | a :: l => by simp [hg a, all_map_of_pointwise hg l]

/-- C1 (counterexample): the claim that after coercion the numeric columns
hold only finite floats or the sentinel `-9999` fails: the source text
`inf` in the `elevation` column is coerced by `pd.to_numeric` to a positive
infinity, which `fillna(-9999)` does not replace, so an infinity — neither
finite nor the sentinel — reaches the output table and the written
partition file. -/
theorem C1_counterexample :
    read_csv fileInf = Except.ok tableInf ∧
    colCells (coerce_and_impute tableInf) "elevation" = [Cell.num NumVal.posInf] ∧
    finiteOrSentinel (Cell.num NumVal.posInf) = false ∧
    (to_parquet false (coerce_and_impute tableInf)).map
        (fun e => (e.1, contentSchema e.2)) = [(partName 0, keep_columns)] := by
  refine ⟨by decide, by decide, by decide, by decide⟩

/-- C1 (amended): after the coercion-and-imputation stage, every value in
each of the three numeric-designated columns is a 64-bit float and never
NaN — finite (the sentinel `-9999` included) or, when the source text
denoted an infinite or overflowing number, an infinity; no text residue
and no NaN marker remains. -/
theorem C1_theorem (t : Table) :
    (numeric_columns.all (fun n =>
        (colCells (coerce_and_impute t) n).all floatNotNan)) = true := by
  have h1 := colCells_transform_lng t
  have h2 := colCells_transform_lat t
  have h3 := colCells_transform_elev t
  have hpt : ∀ c, floatNotNan (fillCell numFillC (coerceCell c)) = true :=
    fun c => (fill_coerce_not_missing c).2
  simp only [numeric_columns, List.all_cons, List.all_nil, h1, h2, h3,
    List.map_map, Bool.and_eq_true, and_true, true_and]
  exact ⟨all_map_of_pointwise (fun c => hpt c) _,
         all_map_of_pointwise (fun c => hpt c) _,
         all_map_of_pointwise (fun c => hpt c) _⟩

/-- C3: the engine coerces the three numeric columns (producing float64
cells) before any fill is applied — each output cell of those columns is
`fillCell` applied after `coerceCell` — and afterwards no designated-fill
column contains a missing marker: every missing value, pre-existing or
coercion-produced, has been replaced by the declared fill (`-9999` for the
numeric columns, `"Unknown"` for the text columns). -/
theorem C3_theorem (t : Table) :
    (colCells (coerce_and_impute t) "decimalLongitude" =
        ((colCells t "decimalLongitude").map coerceCell).map (fillCell numFillC)) ∧
    (colCells (coerce_and_impute t) "decimalLatitude" =
        ((colCells t "decimalLatitude").map coerceCell).map (fillCell numFillC)) ∧
    (colCells (coerce_and_impute t) "elevation" =
        ((colCells t "elevation").map coerceCell).map (fillCell numFillC)) ∧
    (colCells (coerce_and_impute t) "species" =
        (colCells t "species").map (fillCell (Cell.text (some "Unknown")))) ∧
    (colCells (coerce_and_impute t) "countryCode" =
        (colCells t "countryCode").map (fillCell (Cell.text (some "Unknown")))) ∧
    (colCells (coerce_and_impute t) "eventDate" =
        (colCells t "eventDate").map (fillCell (Cell.text (some "Unknown")))) ∧
    (fill_columns.all (fun n =>
        (colCells (coerce_and_impute t) n).all (fun c => !(isMissing c)))) = true := by
  have hnum : ∀ c, (!(isMissing (fillCell numFillC (coerceCell c)))) = true :=
    fun c => by simp [(fill_coerce_not_missing c).1]
  have htxt : ∀ c, (!(isMissing (fillCell (Cell.text (some "Unknown")) c))) = true :=
    fun c => by simp [fill_text_not_missing]
  refine ⟨colCells_transform_lng t, colCells_transform_lat t, colCells_transform_elev t,
    colCells_transform_species t, colCells_transform_country t,
    colCells_transform_event t, ?_⟩
  simp only [fill_columns, List.all_cons, List.all_nil, Bool.and_eq_true,
    and_true, true_and,
    colCells_transform_lng t, colCells_transform_lat t, colCells_transform_elev t,
    colCells_transform_species t, colCells_transform_country t,
    colCells_transform_event t, List.map_map]
  exact ⟨all_map_of_pointwise (fun c => htxt c) _,
         all_map_of_pointwise (fun c => hnum c) _,
         all_map_of_pointwise (fun c => hnum c) _,
         all_map_of_pointwise (fun c => htxt c) _,
         all_map_of_pointwise (fun c => hnum c) _,
         all_map_of_pointwise (fun c => htxt c) _⟩

/-- C7: the imputation stage leaves `gbifID` and `datasetKey` unchanged —
their cell lists after the whole coercion-and-imputation stage are
identical, value for value and position for position, to the cell lists
before it, so every missing marker in them survives and no fill is
applied. -/
theorem C7_theorem (t : Table) :
    colCells (coerce_and_impute t) "gbifID" = colCells t "gbifID" ∧
    colCells (coerce_and_impute t) "datasetKey" = colCells t "datasetKey" :=
  ⟨colCells_transform_gbifID t, colCells_transform_datasetKey t⟩

/-- A mangled name contains a dot. -/
theorem dot_mem_mangled (a : String) (k : Nat) :
    '.' ∈ (a ++ "." ++ toString k).data := by
  simp [String.data_append]

/-- A mangled name never equals a dot-free name. -/
theorem mangled_ne_dotfree {c : String} (hdot : '.' ∉ c.data) (a : String) (k : Nat) :
    a ++ "." ++ toString k ≠ c := by
  intro he
  exact hdot (he ▸ dot_mem_mangled a k)

/-- Every schema column name is dot-free. -/
theorem keep_dotfree : ∀ c ∈ keep_columns, '.' ∉ c.data := by decide

/-- Once a dot-free name has been seen, mangling never emits it again. -/
theorem not_mem_mangleFrom {c : String} (hdot : '.' ∉ c.data) :
    ∀ (l seen : List String), 0 < seen.count c → c ∉ mangleFrom seen l
  | [], seen, hpos => by simp [mangleFrom]
  | a :: l, seen, hpos => by
    simp only [mangleFrom]
    intro hmem
    rcases List.mem_cons.mp hmem with hhead | htail
    · by_cases ha : seen.count a = 0
      · rw [if_pos ha] at hhead
        rw [hhead] at hpos
        omega
      · rw [if_neg ha] at hhead
        exact mangled_ne_dotfree hdot a _ hhead.symm
    · have hpos' : 0 < (seen ++ [a]).count c := by
        rw [List.count_append]
        omega
      exact not_mem_mangleFrom hdot l (seen ++ [a]) hpos' htail

/-- For a dot-free name not yet seen, membership in the mangled list is
membership in the original. -/
theorem mem_mangleFrom_iff {c : String} (hdot : '.' ∉ c.data) :
    ∀ (l seen : List String), seen.count c = 0 → (c ∈ mangleFrom seen l ↔ c ∈ l)
  | [], seen, h0 => by simp [mangleFrom]
  | a :: l, seen, h0 => by
    simp only [mangleFrom]
    by_cases hca : c = a
    · subst hca
      rw [if_pos h0]
      simp
    · have hbeq : (a == c) = false := by
        cases hb : a == c with
        | false => rfl
        | true =>
          have hac : a = c := by simpa using hb
          exact absurd hac.symm hca
      have h0' : (seen ++ [a]).count c = 0 := by
        rw [List.count_append, List.count_singleton, hbeq]
        simpa using h0
      have hih := mem_mangleFrom_iff hdot l (seen ++ [a]) h0'
      constructor
      · intro hmem
        rcases List.mem_cons.mp hmem with hhead | htail
        · exfalso
          by_cases ha : seen.count a = 0
          · rw [if_pos ha] at hhead
            exact hca hhead
          · rw [if_neg ha] at hhead
            exact mangled_ne_dotfree hdot a _ hhead.symm
        · exact List.mem_cons_of_mem a (hih.mp htail)
      · intro hmem
        rcases List.mem_cons.mp hmem with hhead | htail
        · exact absurd hhead hca
        · exact List.mem_cons.mpr (Or.inr (hih.mpr htail))

/-- For a dot-free name, mangling preserves membership. -/
theorem mem_mangle_iff {c : String} (hdot : '.' ∉ c.data) (l : List String) :
    c ∈ mangle_dupe_cols l ↔ c ∈ l :=
  mem_mangleFrom_iff hdot l [] rfl

/-- Two Boolean predicates agreeing on a list give the same `all`. -/
theorem all_congr_mem {p q : String → Bool} :
    ∀ l : List String, (∀ c ∈ l, p c = q c) → l.all p = l.all q
  | [], _ => rfl
  | a :: l, h => by
    simp only [List.all_cons]
    rw [h a (List.mem_cons_self a l),
      all_congr_mem l (fun c hc => h c (List.mem_cons_of_mem a hc))]

/-- The schema-columns-present test is the same on the mangled and the
original header: mangling keeps each first occurrence intact and never
creates a dot-free name. -/
theorem mangle_keep_cond (h : List String) :
    (keep_columns.all (fun c => (mangle_dupe_cols h).contains c)) =
      (keep_columns.all (fun c => h.contains c)) := by
  refine all_congr_mem keep_columns ?_
  intro c hc
  have hdot := keep_dotfree c hc
  have hiff := mem_mangle_iff hdot h
  cases hc2 : (mangle_dupe_cols h).contains c with
  | true =>
    have h1 : c ∈ h := hiff.mp (by simpa [List.elem_iff] using hc2)
    exact (show h.contains c = true by simpa [List.elem_iff] using h1).symm
  | false =>
    cases hc3 : h.contains c with
    | false => rfl
    | true =>
      exfalso
      have h1 : c ∈ mangle_dupe_cols h :=
        hiff.mpr (by simpa [List.elem_iff] using hc3)
      have h2 : (mangle_dupe_cols h).contains c = true := by
        simpa [List.elem_iff] using h1
      rw [hc2] at h2
      cases h2

/-- The schema-filtered mangled header never repeats a name: only a first
occurrence survives mangling with its dot-free name intact. -/
theorem nodup_filter_mangleFrom :
    ∀ (l seen : List String),
      ((mangleFrom seen l).filter (fun c => keep_columns.contains c)).Nodup
  | [], _ => by simp [mangleFrom]
  | a :: l, seen => by
    simp only [mangleFrom, List.filter_cons]
    by_cases hk : (keep_columns.contains
        (if seen.count a = 0 then a else a ++ "." ++ toString (seen.count a))) = true
    · rw [if_pos hk]
      refine List.nodup_cons.mpr ⟨?_, nodup_filter_mangleFrom l (seen ++ [a])⟩
      intro hmem
      have hmem' := (List.mem_filter.mp hmem).1
      have hinkeep : (if seen.count a = 0 then a
          else a ++ "." ++ toString (seen.count a)) ∈ keep_columns := by
        simpa [List.elem_iff] using hk
      have hdot := keep_dotfree _ hinkeep
      by_cases ha : seen.count a = 0
      · rw [if_pos ha] at hmem' hdot
        have hpos : 0 < (seen ++ [a]).count a := by
          rw [List.count_append, List.count_singleton_self]
          omega
        exact not_mem_mangleFrom hdot l (seen ++ [a]) hpos hmem'
      · rw [if_neg ha] at hdot
        exact hdot (dot_mem_mangled a _)
    · rw [if_neg hk]
      exact nodup_filter_mangleFrom l (seen ++ [a])

/-- Keeping the second components of an indexed list filtered on them is
filtering the original list. -/
theorem enumFrom_filter_map_snd (q : String → Bool) :
    ∀ (n : Nat) (l : List String),
      ((List.enumFrom n l).filter (fun p => q p.2)).map Prod.snd = l.filter q
  | _, [] => rfl
  | n, a :: l => by
    cases hq : q a with
    | true =>
      simp only [List.enumFrom, List.filter_cons, hq, List.map_cons]
      exact congrArg (a :: ·) (enumFrom_filter_map_snd q (n + 1) l)
    | false =>
      simp only [List.enumFrom, List.filter_cons, hq]
      exact enumFrom_filter_map_snd q (n + 1) l

/-- A successful read means every schema column occurs in the mangled
header. -/
theorem read_csv_ok_cond {f : CsvFile} {t : Table} (h : read_csv f = Except.ok t) :
    keep_columns.all (fun c => (mangle_dupe_cols f.header).contains c) = true := by
  rw [read_csv] at h
  split at h
  · assumption
  · cases h

/-- The header of a successfully read table is the mangled source header
filtered to the schema columns, in source order. -/
theorem read_csv_header {f : CsvFile} {t : Table} (h : read_csv f = Except.ok t) :
    tableHeader t =
      (mangle_dupe_cols f.header).filter (fun c => keep_columns.contains c) := by
  rw [read_csv] at h
  split at h
  · cases h
    unfold tableHeader
    simp only [List.map_map]
    exact enumFrom_filter_map_snd (fun c => keep_columns.contains c) 0
      (mangle_dupe_cols f.header)
  · cases h

/-- The schema of every partition frame is the table header. -/
theorem partitionFrame_schema (t : Table) (i : Nat) :
    (partitionFrame t i).map Prod.fst = tableHeader t := by
  unfold partitionFrame tableHeader
  exact map_fst_keyed_map (fun k (chs : List (List Cell)) => (chs.get? i).getD []) t.cols

/-- Every file `to_parquet` emits with `write_index=False` carries exactly
the table's columns — no synthetic index column. -/
theorem to_parquet_schemas (t : Table) :
    ∀ e ∈ to_parquet false t, contentSchema e.2 = tableHeader t := by
  intro e he
  unfold to_parquet at he
  simp only [List.mem_map, Bool.false_eq_true, if_false] at he
  obtain ⟨i, _, rfl⟩ := he
  simpa [contentSchema] using partitionFrame_schema t i

/-- The coercion-and-imputation stage preserves the header. -/
theorem tableHeader_transform (t : Table) :
    tableHeader (coerce_and_impute t) = tableHeader t := by
  rw [coerce_and_impute_unfold, tableHeader_fillna_dict, tableHeader_mapCol,
      tableHeader_mapCol, tableHeader_mapCol, tableHeader_mapCol,
      tableHeader_mapCol, tableHeader_mapCol]

/-- C2 (counterexample): the claim that the emitted table always has the
eight schema columns in the fixed schema order fails: for a source whose
header lists the eight columns in reverse order, the read keeps the
header's order, so the output table — and the written partition file —
carries the eight columns reversed, not in schema order. -/
theorem C2_counterexample :
    (read_csv fileRev).map tableHeader = Except.ok keep_columns.reverse ∧
    keep_columns.reverse ≠ keep_columns ∧
    (read_csv fileRev).map (fun t =>
        (to_parquet false (coerce_and_impute t)).map (fun e => contentSchema e.2)) =
      Except.ok [keep_columns.reverse] := by
  refine ⟨by decide, by decide, by decide⟩

/-- C2 (amended): for any input whose header contains the eight schema
columns (arbitrary extra columns, duplicate names included — pandas
mangles later duplicates, so only the first occurrence of each schema name
is selected), the emitted table has exactly those eight columns, in the
order they first occur in the input header — equal to the fixed schema
order only when the header lists them in that relative order — and no
synthetic row-index column is emitted. -/
theorem C2_theorem (f : CsvFile) (t : Table) (h : read_csv f = Except.ok t) :
    tableHeader t =
      (mangle_dupe_cols f.header).filter (fun c => keep_columns.contains c) ∧
    List.Perm (tableHeader t) keep_columns ∧
    (tableHeader t).length = 8 ∧
    ∀ e ∈ to_parquet false (coerce_and_impute t), contentSchema e.2 = tableHeader t := by
  have hdr := read_csv_header h
  have hcond := read_csv_ok_cond h
  have hperm : List.Perm (tableHeader t) keep_columns := by
    rw [hdr]
    refine (List.perm_ext_iff_of_nodup (nodup_filter_mangleFrom f.header [])
      (by decide)).mpr ?_
    intro a
    constructor
    · intro ha
      have := (List.mem_filter.mp ha).2
      simpa [List.elem_iff] using this
    · intro ha
      have hmem : a ∈ mangle_dupe_cols f.header := by
        have := (List.all_eq_true.mp hcond) a ha
        simpa [List.elem_iff] using this
      exact List.mem_filter.mpr ⟨hmem, by simpa [List.elem_iff] using ha⟩
  refine ⟨hdr, hperm, by simpa using hperm.length_eq, ?_⟩
  intro e he
  rw [to_parquet_schemas (coerce_and_impute t) e he, tableHeader_transform]

/-- C2 (witness): the amended claim evaluated on a concrete source whose
header repeats `species` after the eight schema columns: the read still
emits exactly the eight columns, taking the first occurrence. -/
theorem C2_witness :
    read_csv fileDup = Except.ok tableDup ∧
    (tableHeader tableDup =
        (mangle_dupe_cols fileDup.header).filter (fun c => keep_columns.contains c) ∧
      List.Perm (tableHeader tableDup) keep_columns ∧
      (tableHeader tableDup).length = 8 ∧
      ∀ e ∈ to_parquet false (coerce_and_impute tableDup),
        contentSchema e.2 = tableHeader tableDup) :=
  ⟨by decide, C2_theorem fileDup tableDup (by decide)⟩

/-- An indexed filter is nonempty when some element satisfies the test. -/
theorem enumFrom_filter_ne_nil (q : String → Bool) :
    ∀ (n : Nat) (l : List String), (∃ x ∈ l, q x = true) →
      (List.enumFrom n l).filter (fun p => q p.2) ≠ []
  | n, [], h => by simp at h
  | n, a :: l, h => by
    cases hq : q a with
    | true => simp [List.enumFrom, List.filter_cons, hq]
    | false =>
      obtain ⟨x, hx, hqx⟩ := h
      have hxl : x ∈ l := by
        rcases List.mem_cons.mp hx with rfl | hxl
        · rw [hq] at hqx; cases hqx
        · exact hxl
      simp only [List.enumFrom, List.filter_cons, hq]
      exact enumFrom_filter_ne_nil q (n + 1) l ⟨x, hxl, hqx⟩

/-- The read succeeds exactly when every one of the eight schema columns
occurs in the header. -/
theorem read_csv_ok_iff (f : CsvFile) :
    (∃ t, read_csv f = Except.ok t) ↔
      keep_columns.all (fun c => f.header.contains c) = true := by
  constructor
  · rintro ⟨t, ht⟩
    have hm := read_csv_ok_cond ht
    rwa [mangle_keep_cond] at hm
  · intro hc
    have hm : keep_columns.all
        (fun c => (mangle_dupe_cols f.header).contains c) = true := by
      rw [mangle_keep_cond]
      exact hc
    cases hok : read_csv f with
    | ok t => exact ⟨t, rfl⟩
    | error e =>
      exfalso
      unfold read_csv at hok
      rw [if_pos hm] at hok
      cases hok

/-- On a successful read, the partition row counts are the block sizes
after dropping the records with more fields than the header: bad lines are
skipped, everything else becomes a row. -/
theorem read_csv_partRowCounts {f : CsvFile} {t : Table}
    (h : read_csv f = Except.ok t) :
    partRowCounts t = f.blocks.map (fun b =>
      (b.filter (fun r => r.length ≤ f.header.length)).length) := by
  have hcond := read_csv_ok_cond h
  have hmem : "gbifID" ∈ mangle_dupe_cols f.header := by
    have := (List.all_eq_true.mp hcond) "gbifID" (by decide)
    simpa [List.elem_iff] using this
  have hne : ((mangle_dupe_cols f.header).enum.filter
      (fun p => keep_columns.contains p.2)) ≠ [] :=
    enumFrom_filter_ne_nil (fun c => keep_columns.contains c) 0
      (mangle_dupe_cols f.header) ⟨"gbifID", hmem, by decide⟩
  unfold read_csv at h
  rw [if_pos hcond] at h
  cases h
  obtain ⟨p0, tl, hef⟩ := List.exists_cons_of_ne_nil hne
  unfold partRowCounts
  rw [hef]
  simp [List.map_map, Function.comp, List.length_map]

/-- C4 (counterexample): the claim that the read fails only when the
schema columns are entirely absent (or the file unreadable, or no usable
columns) fails: a header containing seven of the eight schema columns —
far from entirely absent — still aborts the read with the ingest error,
where the claim requires a table to be produced. -/
theorem C4_counterexample :
    read_csv file7 = Except.error IngestFailure.usecolsMissing ∧
    "species" ∈ file7.header ∧ "species" ∈ keep_columns ∧
    ¬ "gbifID" ∈ file7.header := by
  refine ⟨by decide, by decide, by decide, by decide⟩

/-- C4 (amended): the reader fails with the non-recoverable ingest error
exactly when at least one of the eight schema columns is absent from the
header (in particular when a wrong delimiter leaves the whole header as
one unusable column); for every other input it produces a table, skipping
records with more fields than the header and keeping all others, so
embedded malformed lines never abort the read. -/
theorem C4_theorem (f : CsvFile) :
    ((∃ t, read_csv f = Except.ok t) ↔
        keep_columns.all (fun c => f.header.contains c) = true) ∧
    (∀ t, read_csv f = Except.ok t →
        partRowCounts t = f.blocks.map (fun b =>
          (b.filter (fun r => r.length ≤ f.header.length)).length)) :=
  ⟨read_csv_ok_iff f, fun _ ht => read_csv_partRowCounts ht⟩

/-- C4 (witness): the amended claim evaluated on a concrete readable file
with one record. -/
theorem C4_witness :
    read_csv fileInf = Except.ok tableInf ∧
    partRowCounts tableInf = fileInf.blocks.map (fun b =>
      (b.filter (fun r => r.length ≤ fileInf.header.length)).length) :=
  ⟨by decide, (C4_theorem fileInf).2 tableInf (by decide)⟩

/-- C5: for every input file with fewer lines than the 1000-line
delimiter-detection sample, the run fails with the format-detection error
(the spec's `FormatDetectionError`, raised while sampling inside
`detect_delimiter`), and the filesystem state is returned untouched: the
failure happens before `os.makedirs`, so no output directory is created
and no partial output is produced. -/
theorem C5_theorem (sniff : String → Option Char) (inp : ConvInput) (st : FsState)
    (h : inp.lines.length < 1000) :
    convert_csv_to_parquet sniff inp st = (st, Except.error RunError.formatDetection) := by
  unfold convert_csv_to_parquet detect_delimiter
  rw [if_pos h]

/-- C5 (witness): a one-line source aborts with the detection error and
leaves the state unchanged. -/
theorem C5_witness :
    inpShort.lines.length < 1000 ∧
    convert_csv_to_parquet sniffComma inpShort stEmpty =
      (stEmpty, Except.error RunError.formatDetection) :=
  ⟨by decide, C5_theorem sniffComma inpShort stEmpty (by decide)⟩

/-- C9: delimiter detection depends only on the first 1000 lines of the
input — any sniffer, applied through `detect_delimiter`, gives equal
results on files with identical 1000-line prefixes — and the conversion
pipeline invokes detection with exactly this fixed default sample size, so
two runs whose inputs agree on the leading sample (and parse identically)
behave identically. -/
theorem C9_theorem :
    (∀ (sniff : String → Option Char) (l1 l2 : List String),
        l1.take 1000 = l2.take 1000 →
        detect_delimiter sniff l1 1000 = detect_delimiter sniff l2 1000) ∧
    (∀ (sniff : String → Option Char) (inp1 inp2 : ConvInput) (st : FsState),
        inp1.lines.take 1000 = inp2.lines.take 1000 →
        inp1.parsed = inp2.parsed →
        convert_csv_to_parquet sniff inp1 st = convert_csv_to_parquet sniff inp2 st) := by
  have hdet : ∀ (sniff : String → Option Char) (l1 l2 : List String),
      l1.take 1000 = l2.take 1000 →
      detect_delimiter sniff l1 1000 = detect_delimiter sniff l2 1000 := by
    intro sniff l1 l2 htake
    have hlen : l1.length < 1000 ↔ l2.length < 1000 := by
      have := congrArg List.length htake
      simp only [List.length_take] at this
      omega
    unfold detect_delimiter
    by_cases h1 : l1.length < 1000
    · rw [if_pos h1, if_pos (hlen.mp h1)]
    · rw [if_neg h1, if_neg (fun h2 => h1 (hlen.mpr h2)), htake]
  refine ⟨hdet, ?_⟩
  intro sniff inp1 inp2 st htake hparse
  unfold convert_csv_to_parquet
  rw [hdet sniff inp1.lines inp2.lines htake, hparse]

/-- C9 (witness): two concrete files agreeing on the first 1000 lines get
the same detected delimiter and the same whole-run result. -/
theorem C9_witness :
    linesA.take 1000 = linesB.take 1000 ∧ inpA.parsed = inpB.parsed ∧
    detect_delimiter sniffComma linesA 1000 = detect_delimiter sniffComma linesB 1000 ∧
    convert_csv_to_parquet sniffComma inpA stEmpty =
      convert_csv_to_parquet sniffComma inpB stEmpty :=
  ⟨by decide, rfl, C9_theorem.1 sniffComma linesA linesB (by decide),
   C9_theorem.2 sniffComma inpA inpB stEmpty (by decide) rfl⟩

/-- One report-loop iteration only reads the state: it returns it as-is
and appends one report line. -/
theorem reportStep_eq (acc : FsState × List FileReport) (name : String) :
    reportStep acc name =
      (acc.1, acc.2 ++ [match pq_read_table acc.1.dir name with
        | some fr => FileReport.ok name (frameRows fr) (fr.map Prod.fst)
        | none => FileReport.bad name]) := by
  unfold reportStep
  cases pq_read_table acc.1.dir name <;> rfl

/-- One validation-loop iteration only reads the state. -/
theorem validateStep_eq (acc : FsState × List (String × Bool)) (name : String) :
    validateStep acc name =
      (acc.1, acc.2 ++ [(name, match pq_read_table acc.1.dir name with
        | some _ => true
        | none => false)]) := by
  unfold validateStep
  cases pq_read_table acc.1.dir name <;> rfl

/-- The report loop never changes the filesystem state. -/
theorem foldl_reportStep_fst :
    ∀ (names : List String) (st : FsState) (acc : List FileReport),
      (names.foldl reportStep (st, acc)).1 = st
  | [], _, _ => rfl
  | n :: ns, st, acc => by
    rw [List.foldl_cons, reportStep_eq]
    exact foldl_reportStep_fst ns st _

/-- The validation loop never changes the filesystem state. -/
theorem foldl_validateStep_fst :
    ∀ (names : List String) (st : FsState) (acc : List (String × Bool)),
      (names.foldl validateStep (st, acc)).1 = st
  | [], _, _ => rfl
  | n :: ns, st, acc => by
    rw [List.foldl_cons, validateStep_eq]
    exact foldl_validateStep_fst ns st _

/-- The report loop reports exactly the names it is handed, in order. -/
theorem foldl_reportStep_names :
    ∀ (names : List String) (st : FsState) (acc : List FileReport),
      ((names.foldl reportStep (st, acc)).2).map FileReport.fname =
        acc.map FileReport.fname ++ names
  | [], _, acc => by simp
  | n :: ns, st, acc => by
    rw [List.foldl_cons, reportStep_eq]
    cases pq_read_table ((st, acc).1).dir n with
    | some fr =>
      rw [foldl_reportStep_names ns]
      simp [FileReport.fname]
    | none =>
      rw [foldl_reportStep_names ns]
      simp [FileReport.fname]

/-- The validation loop validates exactly the names it is handed, in
order. -/
theorem foldl_validateStep_names :
    ∀ (names : List String) (st : FsState) (acc : List (String × Bool)),
      ((names.foldl validateStep (st, acc)).2).map Prod.fst =
        acc.map Prod.fst ++ names
  | [], _, acc => by simp
  | n :: ns, st, acc => by
    rw [List.foldl_cons, validateStep_eq]
    cases pq_read_table ((st, acc).1).dir n with
    | some fr =>
      rw [foldl_validateStep_names ns]
      simp
    | none =>
      rw [foldl_validateStep_names ns]
      simp

/-- C8: the post-write passes are idempotent and mutation-free — each pass
hands back the filesystem state untouched (no output file is modified or
deleted), and running the report or validation pass again over that same
unmodified directory yields the identical per-file row-count/schema report
and the identical validity report. -/
theorem C8_theorem (st : FsState) :
    (reportPass st).1 = st ∧ (validatePass st).1 = st ∧
    reportPass ((reportPass st).1) = reportPass st ∧
    validatePass ((validatePass st).1) = validatePass st ∧
    (validatePass ((reportPass st).1)).2 = (validatePass st).2 := by
  have hr : (reportPass st).1 = st := foldl_reportStep_fst (listParquet st) st []
  have hv : (validatePass st).1 = st := foldl_validateStep_fst (listParquet st) st []
  exact ⟨hr, hv, by rw [hr], by rw [hv], by rw [hr]⟩

/-- The key list of a directory is unchanged by overwriting an existing
name. -/
theorem map_fst_replace (name : String) (c : FileContent) :
    ∀ d : List (String × FileContent),
      (d.map (fun e => if e.1 = name then (name, c) else e)).map Prod.fst =
        d.map Prod.fst
  | [] => rfl
  | e :: d => by
    by_cases h : e.1 = name <;>
      simp [h, map_fst_replace name c d]

/-- Writing one file preserves every existing name. -/
theorem upsert_names (d : List (String × FileContent)) (name : String) (c : FileContent) :
    (upsert d name c).map Prod.fst = d.map Prod.fst ∨
    (upsert d name c).map Prod.fst = d.map Prod.fst ++ [name] := by
  unfold upsert
  by_cases hany : d.any (fun e => e.1 = name) = true
  · left
    rw [if_pos hany]
    exact map_fst_replace name c d
  · right
    rw [if_neg hany]
    simp

/-- Writing a batch of files preserves every existing name. -/
theorem mem_writeAll_names :
    ∀ (files d : List (String × FileContent)) (n : String),
      n ∈ d.map Prod.fst → n ∈ (writeAll d files).map Prod.fst
  | [], _, _, hn => hn
  | f :: fs, d, n, hn => by
    show n ∈ ((f :: fs).foldl (fun acc g => upsert acc g.1 g.2) d).map Prod.fst
    rw [List.foldl_cons]
    have hnext : n ∈ (upsert d f.1 f.2).map Prod.fst := by
      rcases upsert_names d f.1 f.2 with h | h
      · rw [h]; exact hn
      · rw [h]; exact List.mem_append_left _ hn
    exact mem_writeAll_names fs (upsert d f.1 f.2) n hnext

/-- C10: the per-file report and validation passes consider exactly the
names in the output directory listing that end with `.parquet` — the
reported name sequences both equal that filtered listing — and since
writing only upserts, every file present before the run keeps its name in
the directory, so pre-existing `.parquet` files are reported and validated
alongside the new partitions while every other file is silently ignored. -/
theorem C10_theorem :
    (∀ st : FsState, ((reportPass st).2).map FileReport.fname = listParquet st) ∧
    (∀ st : FsState, ((validatePass st).2).map Prod.fst = listParquet st) ∧
    (∀ st : FsState, listParquet st = (st.dir.map Prod.fst).filter parquetSuffix) ∧
    (∀ (d files : List (String × FileContent)) (n : String),
        n ∈ d.map Prod.fst → n ∈ (writeAll d files).map Prod.fst) := by
  refine ⟨?_, ?_, fun _ => rfl, fun d files n hn => mem_writeAll_names files d n hn⟩
  · intro st
    simpa using foldl_reportStep_names (listParquet st) st []
  · intro st
    simpa using foldl_validateStep_names (listParquet st) st []

/-- C10 (witness): over a directory holding a pre-existing Parquet file
and a text file, the report pass names exactly the `.parquet` listing, and
the pre-existing file's name survives a partition write. -/
theorem C10_witness :
    ((reportPass stPre).2).map FileReport.fname = listParquet stPre ∧
    "old.parquet" ∈ stPre.dir.map Prod.fst ∧
    "old.parquet" ∈
      (writeAll stPre.dir (to_parquet false (coerce_and_impute tableInf))).map Prod.fst :=
  ⟨C10_theorem.1 stPre, by decide,
   C10_theorem.2.2.2 stPre.dir (to_parquet false (coerce_and_impute tableInf))
     "old.parquet" (by decide)⟩

/-- A column's missing count is determined by its missing-value mask. -/
theorem missingCount_of_mask {a2 b2 : List (List Cell)}
    (h : a2.map (fun ch => ch.map isMissing) = b2.map (fun ch => ch.map isMissing)) :
    missingCount a2 = missingCount b2 := by
  have key : ∀ l2 : List (List Cell),
      missingCount l2 =
        ((l2.map (fun ch => ch.map isMissing)).flatten).countP (fun b => b) := by
    intro l2
    unfold missingCount
    rw [← List.map_flatten, List.countP_map]
    rfl
  rw [key, key, h]

/-- Lists with equal images under `g` have equal images under anything `g`
determines. -/
theorem map_eq_of_keyed {α β γ : Type} (g : α → β) (k : α → γ)
    (hck : ∀ a b, g a = g b → k a = k b) :
    ∀ l l' : List α, l.map g = l'.map g → l.map k = l'.map k
  | [], [], _ => rfl
  | [], _ :: _, h => by simp at h
  | _ :: _, [], h => by simp at h
  | a :: l, b :: l', h => by
    simp only [List.map_cons, List.cons.injEq] at h
    simp only [List.map_cons]
    rw [hck a b h.1, map_eq_of_keyed g k hck l l' h.2]

/-- The partition row counts are determined by the missing-value mask. -/
theorem partRowCounts_of_mask {t t' : Table} (h : missingMask t = missingMask t') :
    partRowCounts t = partRowCounts t' := by
  unfold missingMask at h
  unfold partRowCounts
  cases hc : t.cols with
  | nil =>
    cases hc' : t'.cols with
    | nil => rfl
    | cons b l' => rw [hc, hc'] at h; simp at h
  | cons a l =>
    cases hc' : t'.cols with
    | nil => rw [hc, hc'] at h; simp at h
    | cons b l' =>
      rw [hc, hc'] at h
      simp only [List.map_cons, List.cons.injEq, Prod.mk.injEq] at h
      simp only [List.headD_cons]
      refine map_eq_of_keyed (fun ch => ch.map isMissing) List.length ?_ a.2 b.2 h.1.2
      intro x y hxy
      have := congrArg List.length hxy
      simpa using this

/-- The whole audit report is determined by the missing-value mask: it
cannot contain the values that fail coercion, since it does not depend on
them at all. -/
theorem auditReport_of_mask {t t' : Table} (h : missingMask t = missingMask t') :
    auditReport t = auditReport t' := by
  have hfst : t.cols.map Prod.fst = t'.cols.map Prod.fst := by
    have hm := congrArg (List.map Prod.fst) h
    unfold missingMask at hm
    rwa [map_fst_keyed_map (fun k (chs : List (List Cell)) => chs.map (fun ch => ch.map isMissing)),
      map_fst_keyed_map (fun k (chs : List (List Cell)) => chs.map (fun ch => ch.map isMissing))]
      at hm
  have hmask := h
  unfold missingMask at hmask
  have hmc : t.cols.map (fun p => (p.1, missingCount p.2)) =
      t'.cols.map (fun p => (p.1, missingCount p.2)) := by
    refine map_eq_of_keyed (fun p => (p.1, p.2.map (fun ch => ch.map isMissing)))
      (fun p => (p.1, missingCount p.2)) ?_ t.cols t'.cols hmask
    intro a b hab
    simp only [Prod.mk.injEq] at hab ⊢
    exact ⟨hab.1, missingCount_of_mask hab.2⟩
  have hdt : t.cols.map (fun p => (p.1, "object")) =
      t'.cols.map (fun p => (p.1, "object")) := by
    refine map_eq_of_keyed Prod.fst (fun p => (p.1, "object")) ?_ t.cols t'.cols hfst
    intro a b hab
    exact congrArg (fun s => (s, "object")) hab
  unfold auditReport
  rw [partRowCounts_of_mask h, hmc, hdt]

/-- C6 (counterexample): the claim that the audit reports, per numeric
column, the distinct values failing coercion is false: two tables whose
`elevation` columns hold different coercion-failing texts (`abc` versus
`xyz`) produce byte-identical audit reports, so no part of the report can
carry the failing-value sets the claim requires. -/
theorem C6_counterexample :
    auditReport tableA = auditReport tableB ∧
    specFailingValues tableA "elevation" = ["abc"] ∧
    specFailingValues tableB "elevation" = ["xyz"] ∧
    specFailingValues tableA "elevation" ≠ specFailingValues tableB "elevation" := by
  refine ⟨by decide, by decide, by decide, by decide⟩

/-- C6 (amended): the audit stage reports per-partition row counts, the
dtypes listing, and per-column missing-value counts restricted to columns
with a nonzero count; it performs no per-value coercion and reports no
coercion-failing values — its whole output is determined by the column
names, partition shapes and missing-value mask alone. -/
theorem C6_theorem (t : Table) :
    (∀ pr : String × Nat,
        pr ∈ (auditReport t).missingNonzero ↔
          (pr ∈ t.cols.map (fun p => (p.1, missingCount p.2)) ∧ 0 < pr.2)) ∧
    (∀ t' : Table, missingMask t = missingMask t' → auditReport t = auditReport t') := by
  constructor
  · intro pr
    unfold auditReport
    simp [List.mem_filter]
  · intro t' h
    exact auditReport_of_mask h

/-- C6 (witness): the amended claim evaluated on the two concrete tables:
equal masks force equal reports, and the nonzero-missing characterisation
holds for the one column with a missing value. -/
theorem C6_witness :
    missingMask tableA = missingMask tableB ∧
    auditReport tableA = auditReport tableB ∧
    ((("species", 1) : String × Nat) ∈ (auditReport tableA).missingNonzero ↔
      ((("species", 1) : String × Nat) ∈
          tableA.cols.map (fun p => (p.1, missingCount p.2)) ∧
        0 < (("species", 1) : String × Nat).2)) :=
  ⟨by decide, (C6_theorem tableA).2 tableB (by decide),
   (C6_theorem tableA).1 ("species", 1)⟩
